import Mathlib

/-!
Verification of the TF1 payload generator (tf1_generator/builder.py).

Shallow embedding conventions:
* Python ints are `ℤ` (or `ℕ` where the source value is provably nonnegative);
  `x & 0xFF` is `Int.emod x 256` and `x >> k` is `Int.fdiv x (2^k)`, which agree
  with Python's semantics on negative numbers.
* Python floats are idealised as real numbers; `math.atan`, `math.sqrt` and
  `round` become `Real.arctan`, `Real.sqrt` and `round` (Python rounds halves
  to even, Mathlib rounds halves up; no statement below depends on a tie).
* Point coordinates are `ℚ` (the authoring tool produces finite decimals), and
  are cast to `ℝ` where the source does float arithmetic.
* The geometry encoder in the source accumulates a lowercase hex string, two
  characters per byte, which the payload builder later decodes with
  `_hex_to_bytes`; on even-length lowercase-hex strings that decoding is a
  bijection onto byte lists, so the embedding carries the byte list directly.
  `f"{w:04x}"[-2:]` is the low byte `w % 256` and `f"{w:04x}"[-4:-2]` is
  `(w >> 8) % 256`, for every nonnegative `w` (also above 0xFFFF).
* A Python function that can raise becomes a function into `Option`.
-/

/-- Python string literal "#FFFFFF" (default point color). -/
def whiteHexStr : String := "#FFFFFF"

/-- Python string literal "#". -/
def hashStr : String := "#"

/-- Python string literal "MyPro" (fallback display name). -/
def fallbackNameStr : String := "MyPro"

/-- Python string literal "display:". -/
def displayTagStr : String := "display:"

/-- builder.py lines 46-47: little-endian byte expansion of an int;
each byte is `(value >> (8*i)) & 0xFF`. -/
def _int_to_le (value : ℤ) (size : ℕ) : List ℕ :=
  (List.range size).map (fun i => ((value.fdiv ((2:ℤ) ^ (8 * i))).emod 256).toNat)

/-- Read 4 bytes little-endian at offset `off` (out-of-range bytes read as 0).
Inverse of `_int_to_le _ 4` for values below 2^32. -/
def readLE32 (l : List ℕ) (off : ℕ) : ℕ :=
  l.getD off 0 + 256 * l.getD (off + 1) 0 + 65536 * l.getD (off + 2) 0 +
    16777216 * l.getD (off + 3) 0

/-- Low byte of a word: models `f"{w:04x}"[-2:]` (for nonnegative `w`). -/
def lowByte (w : ℤ) : ℕ := (w.emod 256).toNat

/-- Second byte of a word: models `f"{w:04x}"[-4:-2]` (for nonnegative `w`). -/
def highByte (w : ℤ) : ℕ := ((w.fdiv 256).emod 256).toNat

/-- builder.py line 15-20: a 2D point with color and sub-path start flag. -/
structure Point where
  x : ℚ
  y : ℚ
  color : String
  start : Bool

/-- Default Point value, used only to satisfy total list indexing where the
source guarantees the index is in range. -/
def point0 : Point := ⟨0, 0, whiteHexStr, false⟩

/-- builder.py lines 23-26: an ordered point sequence with a close flag. -/
structure Pattern where
  points : List Point
  close : Bool

/-- builder.py lines 29-34: a timed scene. -/
structure Scene where
  time_ms : ℤ
  play_mode : ℤ
  patterns : List Pattern
  channel_values : List ℤ

/-- builder.py lines 37-43: build options. -/
structure BuildOptions where
  tf1_name : String
  weight : ℤ
  device_type : String
  canvas_width : ℤ
  canvas_height : ℤ

/-- builder.py lines 57-58: canvas center (float division by 2). -/
def _center_point (w h : ℤ) : ℚ × ℚ := ((w : ℚ) / 2, (h : ℚ) / 2)

open Classical in
/-- builder.py lines 61-80: quantized bearing of point `(px, py)` from center
`(cx, cy)` on a 1024-tick circle, in screen coordinates (y grows downward). -/
noncomputable def _point_angle (cx cy px py : ℝ) : ℤ :=
  if cx = px ∧ cy = py then 0
  else if cx = px then (if py < cy then 256 else 768)
  else if cy = py then (if cx < px then 0 else 512)
  else
    let dx := |cx - px|
    let dy := |cy - py|
    let a := Real.arctan (dy / dx)
    if cx < px ∧ py < cy then round (a / Real.pi / 2 * 1024)
    else if px < cx ∧ py < cy then round ((Real.pi - a) / Real.pi / 2 * 1024)
    else if px < cx ∧ cy < py then round ((Real.pi + a) / Real.pi / 2 * 1024)
    else round ((2 * Real.pi - a) / Real.pi / 2 * 1024)

open Classical in
/-- Model of Python math.atan2 over the reals (signed float zeros are not
modelled; no claim below constrains a turn-hint value). -/
noncomputable def atan2 (y x : ℝ) : ℝ :=
  if 0 < x then Real.arctan (y / x)
  else if x < 0 ∧ 0 ≤ y then Real.arctan (y / x) + Real.pi
  else if x < 0 then Real.arctan (y / x) - Real.pi
  else if 0 < y then Real.pi / 2
  else if y < 0 then -(Real.pi / 2)
  else 0

open Classical in
/-- builder.py lines 83-89: quantized turn hint between the incoming and
outgoing segment at `cur_p`, scaled to 0..63 and shifted left 10 bits. -/
noncomputable def _turn_bits (prev_p cur_p next_p : Point) : ℤ :=
  let a1 := atan2 ((cur_p.y : ℝ) - (prev_p.y : ℝ)) ((prev_p.x : ℝ) - (cur_p.x : ℝ))
  let a2 := atan2 ((cur_p.y : ℝ) - (next_p.y : ℝ)) ((next_p.x : ℝ) - (cur_p.x : ℝ))
  let d := |a2 - a1|
  let d2 := if Real.pi < d then 2 * Real.pi - d else d
  round (d2 / Real.pi * 63) * 1024

/-- Value of one hex digit, as accepted by Python int(_, 16). -/
def hexDigitVal (c : Char) : Option ℕ :=
  if 48 ≤ c.toNat ∧ c.toNat ≤ 57 then some (c.toNat - 48)
  else if 97 ≤ c.toNat ∧ c.toNat ≤ 102 then some (c.toNat - 87)
  else if 65 ≤ c.toNat ∧ c.toNat ≤ 70 then some (c.toNat - 55)
  else none

/-- Value of a two-digit hex pair. The source raises ValueError on an invalid
digit; that path is unreachable in every statement below (the guard in
_color_bits has already substituted "#FFFFFF"), so invalid digits read as 0. -/
def hexPairVal (c1 c2 : Char) : ℕ := 16 * (hexDigitVal c1).getD 0 + (hexDigitVal c2).getD 0

/-- builder.py lines 92-107: threshold-quantized color bits. The float
threshold comparison `channel > max(r,g,b)/2.0` is exact, modelled as
`2 * channel > max r (max g b)`. -/
def _color_bits (color_hex : String) : ℕ :=
  let c0 := color_hex.trim
  let c := if c0.startsWith hashStr ∧ c0.length = 7 then c0 else whiteHexStr
  let l := c.toList
  let r := hexPairVal (l.getD 1 'f') (l.getD 2 'f')
  let g := hexPairVal (l.getD 3 'f') (l.getD 4 'f')
  let b := hexPairVal (l.getD 5 'f') (l.getD 6 'f')
  let m := max r (max g b)
  (if 2 * b > m then 32768 else 0) + (if 2 * g > m then 16384 else 0) +
    (if 2 * r > m then 8192 else 0)

/-- builder.py lines 122-124: the radius word of one encoded vertex. Both
offsets are divided by `canvas_size - 1`, the single size parameter of
_encode_step. -/
noncomputable def _radius (cur_x cur_y cx cy : ℚ) (canvas_size : ℤ) : ℤ :=
  let dx := |((cur_x : ℝ)) - ((cx : ℝ))| / ((canvas_size : ℝ) - 1) * 4095
  let dy := |((cur_y : ℝ)) - ((cy : ℝ))| / ((canvas_size : ℝ) - 1) * 4095
  round (Real.sqrt (dx * dx + dy * dy) * 0.98)

/-- The radius formula as the specification words it (section 4.2 step 2):
the x offset normalized by the canvas width, the y offset by the canvas
height. Written from the spec, to be compared with `_radius`. -/
noncomputable def radius_spec (cur_x cur_y cx cy : ℚ) (canvas_w canvas_h : ℤ) : ℤ :=
  let dx := |((cur_x : ℝ)) - ((cx : ℝ))| / ((canvas_w : ℝ) - 1) * 4095
  let dy := |((cur_y : ℝ)) - ((cy : ℝ))| / ((canvas_h : ℝ) - 1) * 4095
  round (Real.sqrt (dx * dx + dy * dy) * 0.98)

/-- builder.py lines 110-133: the 4 little-endian bytes of one encoded
vertex (low/high byte of the color+radius word, then of the turn+angle word). -/
noncomputable def _encode_step (is_start : Bool) (prev_p : Option Point) (cur_p : Point)
    (next_p : Option Point) (center : ℚ × ℚ) (canvas_size : ℤ) : List ℕ :=
  let color_part : ℤ :=
    if is_start = false then
      (match prev_p with | some pp => ((_color_bits pp.color : ℤ)) | none => 0)
    else 0
  let first_word : ℤ := color_part + _radius cur_p.x cur_p.y center.1 center.2 canvas_size
  let turn_part : ℤ :=
    if is_start = false then
      match prev_p, next_p with
      | some pp, some np => if np.start = false then _turn_bits pp cur_p np else 0
      | _, _ => 0
    else 0
  let second_word : ℤ :=
    turn_part + _point_angle (center.1 : ℝ) (center.2 : ℝ) (cur_p.x : ℝ) (cur_p.y : ℝ)
  [lowByte first_word, highByte first_word, lowByte second_word, highByte second_word]

/-- builder.py lines 136-140: scan backwards from index `i` for a start point. -/
def _find_first_start (points : List Point) : ℕ → Option Point
  | 0 => if (points.getD 0 point0).start then some (points.getD 0 point0) else none
  | i + 1 =>
    if (points.getD (i + 1) point0).start then some (points.getD (i + 1) point0)
    else _find_first_start points i

/-- The `next` neighbor of vertex `i` (none at the end of the pattern),
builder.py line 150. -/
def nextPointOpt (pts : List Point) (i : ℕ) : Option Point :=
  if i < pts.length - 1 then some (pts.getD (i + 1) point0) else none

/-- builder.py line 152: the closing-step condition at vertex `i`: the close
flag is set and either the next vertex starts a new sub-path or `i` is the
pattern's last index. -/
def closesAt (pat : Pattern) (i : ℕ) : Bool :=
  pat.close &&
    ((match nextPointOpt pat.points i with | some np => np.start | none => false) ||
      i == pat.points.length - 1)

/-- A closing step is actually emitted at `i` when additionally a start point
exists at or before `i` (builder.py lines 153-155). -/
def emitsClose (pat : Pattern) (i : ℕ) : Bool :=
  closesAt pat i && (_find_first_start pat.points i).isSome

/-- builder.py lines 148-155: the bytes contributed by loop iteration `i`. -/
noncomputable def encodePatternAt (pat : Pattern) (center : ℚ × ℚ) (canvas_w : ℤ) (i : ℕ) :
    List ℕ :=
  let pts := pat.points
  let cur_p := pts.getD i point0
  let prev_p := if 0 < i then some (pts.getD (i - 1) point0) else none
  let next_p := nextPointOpt pts i
  _encode_step cur_p.start prev_p cur_p next_p center canvas_w ++
    (if closesAt pat i then
      match _find_first_start pts i with
      | some sp => _encode_step false (some cur_p) sp next_p center canvas_w
      | none => []
    else [])

/-- builder.py lines 143-156: encode all patterns of one scene. The canvas
width is passed to _encode_step as its single canvas_size parameter, exactly
as in line 151 of the source. -/
noncomputable def encode_patterns (patterns : List Pattern) (canvas_w canvas_h : ℤ) : List ℕ :=
  let center := _center_point canvas_w canvas_h
  patterns.flatMap
    (fun pat => (List.range pat.points.length).flatMap (encodePatternAt pat center canvas_w))

/-- builder.py lines 159-163: membership test for the CJK block U+4E00-U+9FFF. -/
def _contains_cjk (value : String) : Bool :=
  value.toList.any (fun ch => 0x4e00 ≤ ch.toNat && ch.toNat ≤ 0x9fff)

/-- Python list element assignment from the end: `payload[-k] = v` on a list
with `k ≤ len` (the only way the source uses it, line 213). -/
def setFromEnd (l : List ℕ) (k : ℕ) (v : ℕ) : List ℕ := l.set (l.length - k) v

/-- builder.py lines 179-184 (dedup part): ordered first-seen list of the
distinct encoded blobs. -/
def uniqueBlobs (rows : List (List ℕ × Scene)) : List (List ℕ) :=
  rows.foldl (fun acc r => if r.1 ∈ acc then acc else acc ++ [r.1]) []

/-- builder.py line 183: channel_count is overwritten on every loop iteration,
so it ends as the channel vector length of the last scene (0 if no scenes). -/
def lastChannelCount (rows : List (List ℕ × Scene)) : ℕ :=
  rows.foldl (fun _ r => r.2.channel_values.length) 0

/-- builder.py line 186. -/
def indexTableStart (rows : List (List ℕ × Scene)) : ℕ :=
  48 + 4 * (uniqueBlobs rows).length + 4

/-- builder.py line 194. -/
def sceneBlockEnd (rows : List (List ℕ × Scene)) : ℕ :=
  indexTableStart rows + (lastChannelCount rows + 3) * rows.length

/-- builder.py lines 196-199: the pattern offset table entries after the
initial scene-block-end word; each entry is the running end offset after
adding the blob's byte length. -/
def offsetEntries (p_end : ℕ) : List (List ℕ) → List ℕ
  | [] => []
  | blob :: rest =>
    _int_to_le ((p_end + blob.length : ℕ)) 4 ++ offsetEntries (p_end + blob.length) rest

/-- Clamped channel byte, builder.py line 210: `max(0, min(255, int(v))) & 0xFF`. -/
def clampByte (v : ℤ) : ℕ := (max 0 (min 255 v)).toNat

/-- builder.py lines 201-213: the scene-record loop. It appends each record to
the full payload accumulated so far and then, when `channel_count > 3`,
overwrites `payload[-channel_count + 3]` with the scene's blob index. -/
def sceneRecordsLoop (unique : List (List ℕ)) (channel_count : ℕ) (total : ℕ) :
    ℕ → List (List ℕ × Scene) → List ℕ → List ℕ
  | _, [], acc => acc
  | i, row :: rest, acc =>
    let pattern_index := unique.indexOf row.1
    let play_mode : ℤ := if i = total - 1 then 0 else row.2.play_mode
    let acc1 := acc ++ _int_to_le (row.2.time_ms.fdiv 10) 2 ++ [(play_mode.emod 256).toNat]
    let acc2 := acc1 ++ row.2.channel_values.map clampByte
    let acc3 :=
      if 3 < channel_count then setFromEnd acc2 (channel_count - 3) (pattern_index % 256)
      else acc2
    sceneRecordsLoop unique channel_count total (i + 1) rest acc3

/-- builder.py lines 170-174: the first 20 payload bytes (12 fillers, the
first 4 characters of device_type as raw code points, 0xFF padding to byte
16, then the constant 48 as 4 bytes). -/
def headerBytes (device_type : String) : List ℕ :=
  let dev := device_type.toList.take 4
  List.replicate 12 255 ++ dev.map Char.toNat ++
    List.replicate (16 - (12 + dev.length)) 255 ++ [48, 0, 0, 0]

/-- builder.py line 220: the display name actually emitted. -/
def displayName (opts : BuildOptions) : String :=
  if _contains_cjk opts.tf1_name then fallbackNameStr else opts.tf1_name

/-- builder.py lines 170-199: everything the source appends to the payload
list before the scene-record loop runs (header region and pattern offset
table). -/
def prePayload (rows : List (List ℕ × Scene)) (opts : BuildOptions) : List ℕ :=
  headerBytes opts.device_type ++
    _int_to_le ((indexTableStart rows : ℕ)) 4 ++
    [0, 0, lastChannelCount rows + 3, 0] ++
    _int_to_le ((rows.length : ℕ)) 2 ++
    _int_to_le (((uniqueBlobs rows).length : ℕ)) 2 ++
    _int_to_le opts.weight 2 ++
    List.replicate 14 0 ++
    _int_to_le ((sceneBlockEnd rows : ℕ)) 4 ++
    offsetEntries (sceneBlockEnd rows) (uniqueBlobs rows)

/-- builder.py lines 218-221: trailing zero byte, the "display:" tag and the
display name, all as raw code points. -/
def trailerBytes (opts : BuildOptions) : List ℕ :=
  [0] ++ displayTagStr.toList.map Char.toNat ++ (displayName opts).toList.map Char.toNat

/-- builder.py lines 170-221: the complete payload working list before the
final bytes() conversion. The scene-record loop mutates the accumulated list
in place, so it receives everything built before it. -/
def fullPayload (rows : List (List ℕ × Scene)) (opts : BuildOptions) : List ℕ :=
  sceneRecordsLoop (uniqueBlobs rows) (lastChannelCount rows) rows.length 0 rows
      (prePayload rows opts) ++
    (uniqueBlobs rows).flatMap id ++ trailerBytes opts

/-- builder.py lines 166-223 given precomputed per-scene blobs: empty input
raises ValueError (line 167-168); the final `bytes(payload)` raises
ValueError when any element is not a byte (every element of the working list
is nonnegative by construction, so only the bound matters). -/
def buildFromRows (rows : List (List ℕ × Scene)) (opts : BuildOptions) : Option (List ℕ) :=
  if rows.isEmpty then none
  else if (fullPayload rows opts).all (fun b => b < 256) then some (fullPayload rows opts)
  else none

/-- builder.py lines 179-184: each scene is paired with its encoded blob. -/
noncomputable def sceneRows (scenes : List Scene) (opts : BuildOptions) :
    List (List ℕ × Scene) :=
  scenes.map (fun s => (encode_patterns s.patterns opts.canvas_width opts.canvas_height, s))

/-- builder.py lines 166-223: the full payload builder. -/
noncomputable def build_tf1_payload (scenes : List Scene) (opts : BuildOptions) :
    Option (List ℕ) :=
  buildFromRows (sceneRows scenes opts) opts

/-- builder.py lines 226-230 helper: greedy splitting into chunks of
`cs1 + 1` bytes. Structural recursion on a length fuel so the definition
evaluates by kernel reduction; `chunk_payload` instantiates the fuel with the
payload length, which the termination argument of the source loop bounds. -/
def chunksGo (cs1 : ℕ) : ℕ → List ℕ → List (List ℕ)
  | 0, _ => []
  | _, [] => []
  | fuel + 1, x :: xs =>
    (x :: xs).take (cs1 + 1) :: chunksGo cs1 fuel ((x :: xs).drop (cs1 + 1))

/-- builder.py lines 226-230: raises ValueError on a non-positive chunk size,
otherwise yields the consecutive slices `payload[offset : offset+chunk_size]`. -/
def chunk_payload (payload : List ℕ) (chunk_size : ℤ) : Option (List (List ℕ)) :=
  if chunk_size ≤ 0 then none
  else some (chunksGo (chunk_size.toNat - 1) payload.length payload)

/-- Python bytearray slice assignment `l[i:j] = src` for `0 ≤ i ≤ j`: the
replaced range is clamped to the current length, and the list length changes
by `src.length` minus the replaced count. -/
def sliceAssign (l : List ℕ) (i j : ℕ) (src : List ℕ) : List ℕ :=
  l.take i ++ src ++ l.drop j

/-- Python item assignment `l[i] = v` for nonnegative `i`: raises IndexError
when `i` is out of range. -/
def setIdx (l : List ℕ) (i : ℕ) (v : ℕ) : Option (List ℕ) :=
  if i < l.length then some (l.set i v) else none

/-- builder.py line 9. -/
def FRAME_HEAD : ℕ := 0xAA

/-- builder.py line 10. -/
def FRAME_TAIL : ℕ := 0x5A

/-- builder.py line 11. -/
def CMD_TF1_HANDSHAKE : ℕ := 17

/-- builder.py line 12. -/
def CMD_TF1_CHUNK : ℕ := 18

/-- builder.py lines 233-246: the 16-byte handshake frame. `frame[8:11] =
tag[:3]` is a Python slice assignment (a short tag shrinks the bytearray);
`total_length.to_bytes(4, "little")` raises OverflowError outside 0..2^32-1,
modelled as none. -/
def build_handshake_frame (total_length : ℤ) (tag : List ℕ) (file_type : ℤ) :
    Option (List ℕ) :=
  let frame := List.replicate 16 0
  let frame := ((((((((frame.set 0 FRAME_HEAD).set 1 CMD_TF1_HANDSHAKE).set 2 0).set 3
    FRAME_TAIL).set 4 16).set 5 0).set 6 0).set 7 0)
  let frame := sliceAssign frame 8 11 (tag.take 3)
  match setIdx frame 11 ((file_type.emod 256).toNat) with
  | none => none
  | some frame2 =>
    if 0 ≤ total_length ∧ total_length < 2 ^ 32 then
      some (sliceAssign frame2 12 16 (_int_to_le total_length 4))
    else none

/-- builder.py lines 249-263: the chunk frame. The frame length recorded in
bytes 4-5 is taken before the tag slice assignment (line 255); `frame[12:] =
chunk` replaces everything from byte 12 on. -/
def build_chunk_frame (sequence : ℤ) (chunk : List ℕ) (tag : List ℕ) (file_type : ℤ) :
    Option (List ℕ) :=
  let frame := List.replicate (12 + chunk.length) 0
  let frame := (((frame.set 0 FRAME_HEAD).set 1 CMD_TF1_CHUNK).set 2 0).set 3 FRAME_TAIL
  let frame_len := frame.length
  let frame := (((frame.set 4 (frame_len % 256)).set 5 (frame_len / 256 % 256)).set 6
    ((sequence.emod 256).toNat)).set 7 (((sequence.fdiv 256).emod 256).toNat)
  let frame := sliceAssign frame 8 11 (tag.take 3)
  match setIdx frame 11 ((file_type.emod 256).toNat) with
  | none => none
  | some frame2 => some (sliceAssign frame2 12 frame2.length chunk)

/-- One record of a "channelList" entry in the app-sequence shape: only the
"value" key is read; `none` models a missing or null value (Python
`c.get("value", 0) or 0` collapses missing, null and 0 to 0). -/
structure SeqChannelEntry where
  value : Option ℤ

/-- One point record in the app-sequence shape; `none` models a missing key. -/
structure SeqPointEntry where
  x : Option ℚ
  y : Option ℚ
  color : Option String
  start : Option Bool

/-- One pattern record in the app-sequence shape. -/
structure SeqPatternEntry where
  points : List SeqPointEntry
  close : Option Bool

/-- One scene record in the app-sequence shape. A missing "channelList" or
"patternList" key reads as the empty list (the source's .get default). -/
structure SeqSceneEntry where
  channelList : List SeqChannelEntry
  patternList : List SeqPatternEntry
  time : Option ℤ
  time_ms : Option ℤ
  playModeValue : Option ℤ
  play_mode : Option ℤ

/-- builder.py lines 282-308: normalize one app-sequence scene record. -/
def scene_from_seq_entry (e : SeqSceneEntry) (default_channels : List ℤ) : Scene :=
  let chan :=
    if e.channelList.isEmpty then default_channels
    else e.channelList.map (fun c => c.value.getD 0)
  let patterns :=
    e.patternList.filterMap (fun pat =>
      let points := pat.points.enum.map (fun ip =>
        Point.mk (ip.2.x.getD 0) (ip.2.y.getD 0) (ip.2.color.getD whiteHexStr)
          (ip.2.start.getD (ip.1 = 0)))
      if points.isEmpty then none else some (Pattern.mk points (pat.close.getD true)))
  Scene.mk (e.time.getD (e.time_ms.getD 5000)) (e.playModeValue.getD (e.play_mode.getD 0))
    patterns chan

/-- One point source in the simple shape: a two-element ordered pair, a keyed
record, or anything else (which the source skips with `continue`). -/
inductive SimplePointEntry where
  | pair (x y : ℚ)
  | keyed (x y : Option ℚ) (start : Option Bool) (color : Option String)
  | invalid

/-- One pattern record in the simple shape. -/
structure SimplePatternEntry where
  color : Option String
  points : List SimplePointEntry
  close : Option Bool

/-- One scene record in the simple shape. `channels = none` models a missing
"channels" key or one whose value is not a list. -/
structure SimpleSceneEntry where
  channels : Option (List ℤ)
  patterns : List SimplePatternEntry
  time_ms : Option ℤ
  time : Option ℤ
  play_mode : Option ℤ
  playModeValue : Option ℤ

/-- builder.py lines 322-333: the point loop of the simple shape. The running
`color` variable is updated by each keyed point that carries a color and then
applies to the following points; the enumeration index counts skipped entries
too, matching Python's enumerate over the raw list. -/
def simplePointsLoop : List (ℕ × SimplePointEntry) → String → List Point
  | [], _ => []
  | (idx, SimplePointEntry.pair x y) :: rest, color =>
    Point.mk x y color (idx = 0) :: simplePointsLoop rest color
  | (idx, SimplePointEntry.keyed x y st c) :: rest, color =>
    let color2 := c.getD color
    Point.mk (x.getD 0) (y.getD 0) color2 (st.getD (idx = 0)) :: simplePointsLoop rest color2
  | (_, SimplePointEntry.invalid) :: rest, color => simplePointsLoop rest color

/-- builder.py lines 311-342: normalize one simple-shape scene record. -/
def scene_from_simple_entry (e : SimpleSceneEntry) (default_channels : List ℤ) : Scene :=
  let chan :=
    match e.channels with
    | some raw =>
      if raw.isEmpty then default_channels
      else if raw.length < default_channels.length then
        raw ++ default_channels.drop raw.length
      else raw
    | none => default_channels
  let patterns :=
    e.patterns.filterMap (fun pat =>
      let color := pat.color.getD whiteHexStr
      let points := simplePointsLoop pat.points.enum color
      if points.isEmpty then none else some (Pattern.mk points (pat.close.getD true)))
  Scene.mk (e.time_ms.getD (e.time.getD 5000)) (e.play_mode.getD (e.playModeValue.getD 0))
    patterns chan

theorem _int_to_le_length (v : ℤ) (n : ℕ) : (_int_to_le v n).length = n := by
  simp [_int_to_le]

theorem chunksGo_flatten (cs1 : ℕ) :
    ∀ fuel l, l.length ≤ fuel → (chunksGo cs1 fuel l).flatten = l := by
  intro fuel
  induction fuel with
  | zero =>
    intro l hl
    rw [List.length_eq_zero.mp (Nat.le_zero.mp hl)]
    rfl
  | succ n ih =>
    intro l hl
    match l with
    | [] => rfl
    | x :: xs =>
      rw [chunksGo, List.flatten_cons, ih _ (by simp at hl ⊢; omega),
        List.take_append_drop]

theorem chunksGo_mem_length (cs1 : ℕ) :
    ∀ fuel l c, c ∈ chunksGo cs1 fuel l → c.length ≤ cs1 + 1 := by
  intro fuel
  induction fuel with
  | zero => intro l c hc; simp [chunksGo] at hc
  | succ n ih =>
    intro l c hc
    match l with
    | [] => simp [chunksGo] at hc
    | x :: xs =>
      rw [chunksGo] at hc
      rcases List.mem_cons.mp hc with h | h
      · rw [h]; exact List.length_take_le _ _
      · exact ih _ _ h

/-- C8: chunk_payload fails exactly on non-positive chunk sizes; for positive
ones it yields consecutive slices of at most chunk_size bytes whose
concatenation is the payload. -/
theorem C8_chunk_payload_spec (payload : List ℕ) (chunk_size : ℤ) :
    (chunk_size ≤ 0 → chunk_payload payload chunk_size = none) ∧
    (0 < chunk_size →
      (chunk_payload payload chunk_size).isSome = true ∧
      ((chunk_payload payload chunk_size).getD []).flatten = payload ∧
      ∀ c ∈ (chunk_payload payload chunk_size).getD [], c.length ≤ chunk_size.toNat) := by
  constructor
  · intro h
    simp [chunk_payload, h]
  · intro h
    have hn : ¬ chunk_size ≤ 0 := not_le.mpr h
    have h1 : 1 ≤ chunk_size.toNat := by omega
    refine ⟨by simp [chunk_payload, hn], ?_, ?_⟩
    · simp only [chunk_payload, if_neg hn, Option.getD_some]
      exact chunksGo_flatten _ _ _ le_rfl
    · intro c hc
      simp only [chunk_payload, if_neg hn, Option.getD_some] at hc
      have := chunksGo_mem_length (chunk_size.toNat - 1) payload.length payload c hc
      omega

/-- Witness for C8 at a concrete payload and chunk sizes 2 and 0. -/
theorem C8_chunk_payload_spec_witness :
    chunk_payload [1, 2, 3, 4, 5] 0 = none ∧
    ((chunk_payload [1, 2, 3, 4, 5] 2).getD []).flatten = [1, 2, 3, 4, 5] ∧
    ∀ c ∈ (chunk_payload [1, 2, 3, 4, 5] 2).getD [], c.length ≤ (2 : ℤ).toNat := by
  refine ⟨(C8_chunk_payload_spec [1, 2, 3, 4, 5] 0).1 (by norm_num), ?_, ?_⟩
  · exact ((C8_chunk_payload_spec [1, 2, 3, 4, 5] 2).2 (by norm_num)).2.1
  · exact ((C8_chunk_payload_spec [1, 2, 3, 4, 5] 2).2 (by norm_num)).2.2

set_option maxHeartbeats 2000000 in
/-- C9 (amended): the handshake frame layout holds for totalLength in 0..2^32-1
(to_bytes raises outside that range), and the chunk frame layout holds when
len(chunk) + min(len(tag), 3) ≥ 3 (otherwise the write to frame[11] raises
IndexError after a short tag shrinks the bytearray); byte 11 carries the low
8 bits of fileType. -/
theorem C9_frame_shapes :
    (∀ (total : ℤ) (tag : List ℕ) (ft : ℤ), 0 ≤ total → total < 2 ^ 32 →
      (build_handshake_frame total tag ft).isSome = true ∧
      ((build_handshake_frame total tag ft).getD []).length = 16 ∧
      ((build_handshake_frame total tag ft).getD []).take 8 = [170, 17, 0, 90, 16, 0, 0, 0] ∧
      ((build_handshake_frame total tag ft).getD []).getD 11 0 = (ft.emod 256).toNat ∧
      ((build_handshake_frame total tag ft).getD []).drop 12 = _int_to_le total 4) ∧
    (∀ (seq : ℤ) (chunk : List ℕ) (tag : List ℕ) (ft : ℤ),
      3 ≤ chunk.length + min tag.length 3 →
      (build_chunk_frame seq chunk tag ft).isSome = true ∧
      ((build_chunk_frame seq chunk tag ft).getD []).length = 12 + chunk.length ∧
      ((build_chunk_frame seq chunk tag ft).getD []).take 4 = [170, 18, 0, 90] ∧
      ((build_chunk_frame seq chunk tag ft).getD []).getD 4 0 = (12 + chunk.length) % 256 ∧
      ((build_chunk_frame seq chunk tag ft).getD []).getD 5 0 =
        (12 + chunk.length) / 256 % 256 ∧
      ((build_chunk_frame seq chunk tag ft).getD []).getD 6 0 = (seq.emod 256).toNat ∧
      ((build_chunk_frame seq chunk tag ft).getD []).getD 7 0 =
        ((seq.fdiv 256).emod 256).toNat ∧
      ((build_chunk_frame seq chunk tag ft).getD []).drop 12 = chunk) := by
  constructor
  · intro total tag ft h1 h2
    have h2' : total < 4294967296 := by omega
    match tag with
    | [] =>
      simp [build_handshake_frame, sliceAssign, setIdx, List.set, h1, h2',
        FRAME_HEAD, FRAME_TAIL, CMD_TF1_HANDSHAKE, List.replicate, List.take, List.drop,
        _int_to_le_length]
    | [a] =>
      simp [build_handshake_frame, sliceAssign, setIdx, List.set, h1, h2',
        FRAME_HEAD, FRAME_TAIL, CMD_TF1_HANDSHAKE, List.replicate, List.take, List.drop,
        _int_to_le_length]
    | [a, b] =>
      simp [build_handshake_frame, sliceAssign, setIdx, List.set, h1, h2',
        FRAME_HEAD, FRAME_TAIL, CMD_TF1_HANDSHAKE, List.replicate, List.take, List.drop,
        _int_to_le_length]
    | a :: b :: c :: rest =>
      simp [build_handshake_frame, sliceAssign, setIdx, List.set, h1, h2',
        FRAME_HEAD, FRAME_TAIL, CMD_TF1_HANDSHAKE, List.replicate, List.take, List.drop,
        _int_to_le_length]
  · intro seq chunk tag ft h
    match tag with
    | [] =>
      obtain ⟨c2, hc⟩ : ∃ c2, chunk.length = 3 + c2 := by
        refine ⟨chunk.length - 3, ?_⟩; simp at h; omega
      rw [show (12 : ℕ) + chunk.length = 15 + c2 by omega]
      simp [build_chunk_frame, sliceAssign, setIdx, List.set, hc,
        FRAME_HEAD, FRAME_TAIL, CMD_TF1_CHUNK, List.replicate_add, List.replicate,
        List.take_append_eq_append_take, List.drop_append_eq_append_drop, List.set_append,
        List.take, List.drop, List.getD_append]
      omega
    | [a] =>
      obtain ⟨c2, hc⟩ : ∃ c2, chunk.length = 2 + c2 := by
        refine ⟨chunk.length - 2, ?_⟩; simp at h; omega
      rw [show (12 : ℕ) + chunk.length = 14 + c2 by omega]
      simp [build_chunk_frame, sliceAssign, setIdx, List.set, hc,
        FRAME_HEAD, FRAME_TAIL, CMD_TF1_CHUNK, List.replicate_add, List.replicate,
        List.take_append_eq_append_take, List.drop_append_eq_append_drop, List.set_append,
        List.take, List.drop, List.getD_append]
      omega
    | [a, b] =>
      obtain ⟨c2, hc⟩ : ∃ c2, chunk.length = 1 + c2 := by
        refine ⟨chunk.length - 1, ?_⟩; simp at h; omega
      rw [show (12 : ℕ) + chunk.length = 13 + c2 by omega]
      simp [build_chunk_frame, sliceAssign, setIdx, List.set, hc,
        FRAME_HEAD, FRAME_TAIL, CMD_TF1_CHUNK, List.replicate_add, List.replicate,
        List.take_append_eq_append_take, List.drop_append_eq_append_drop, List.set_append,
        List.take, List.drop, List.getD_append]
      omega
    | a :: b :: c :: rest =>
      simp [build_chunk_frame, sliceAssign, setIdx, List.set,
        FRAME_HEAD, FRAME_TAIL, CMD_TF1_CHUNK, List.replicate_add, List.replicate,
        List.take_append_eq_append_take, List.drop_append_eq_append_drop, List.set_append,
        List.take, List.drop, List.getD_append]
      omega

/-- Counterexample to C9 as stated: for totalLength = 2^32 the handshake
builder raises OverflowError instead of returning 16 bytes, and for an empty
chunk with an empty tag the chunk builder raises IndexError instead of
returning 12 bytes. -/
theorem C9_frame_shapes_cex :
    build_handshake_frame (2 ^ 32) [84, 70, 49] 0 = none ∧
    build_chunk_frame 1 [] [] 0 = none := by
  constructor <;> decide

/-- Witness for C9 at the default 3-byte TF1 tag. -/
theorem C9_frame_shapes_witness :
    ((build_handshake_frame 1000 [84, 70, 49] 0).getD []).length = 16 ∧
    ((build_chunk_frame 1 [7, 8] [84, 70, 49] 0).getD []).length = 12 + 2 := by
  exact ⟨(C9_frame_shapes.1 1000 [84, 70, 49] 0 (by norm_num) (by norm_num)).2.1,
    (C9_frame_shapes.2 1 [7, 8] [84, 70, 49] 0 (by norm_num)).2.1⟩

/-- The scene record the loop produces for one row: duration, play mode, then
the clamped channel bytes, with channel byte 3 overwritten by the blob index
when channel_count > 3. Proven below to agree with sceneRecordsLoop whenever
the row's channel vector length equals channel_count. -/
def sceneRecord (unique : List (List ℕ)) (channel_count : ℕ) (isLast : Bool)
    (row : List ℕ × Scene) : List ℕ :=
  _int_to_le (row.2.time_ms.fdiv 10) 2 ++
    [((((if isLast then 0 else row.2.play_mode) : ℤ)).emod 256).toNat] ++
    (if 3 < channel_count then
      (row.2.channel_values.map clampByte).set 3 (unique.indexOf row.1 % 256)
    else row.2.channel_values.map clampByte)

/-- The concatenation of the scene records from loop counter `i` on. -/
def sceneRecords (unique : List (List ℕ)) (channel_count total : ℕ) :
    ℕ → List (List ℕ × Scene) → List ℕ
  | _, [] => []
  | i, row :: rest =>
    sceneRecord unique channel_count (decide (i = total - 1)) row ++
      sceneRecords unique channel_count total (i + 1) rest

theorem setFromEnd_append (a b : List ℕ) (k v : ℕ) (hk : k ≤ b.length) :
    setFromEnd (a ++ b) k v = a ++ setFromEnd b k v := by
  unfold setFromEnd
  rw [List.length_append, List.set_append, if_neg (by omega)]
  congr 2
  omega

theorem sceneRecord_length (unique : List (List ℕ)) (cc : ℕ) (isLast : Bool)
    (row : List ℕ × Scene) (h : row.2.channel_values.length = cc) :
    (sceneRecord unique cc isLast row).length = 3 + cc := by
  by_cases h3 : 3 < cc <;> simp [sceneRecord, h3, _int_to_le_length, h] <;> omega

theorem sceneRecord_step (unique : List (List ℕ)) (cc i total : ℕ)
    (row : List ℕ × Scene) (acc : List ℕ) (hrow : row.2.channel_values.length = cc) :
    (if 3 < cc then
      setFromEnd (acc ++ _int_to_le (row.2.time_ms.fdiv 10) 2 ++
          [((((if i = total - 1 then 0 else row.2.play_mode) : ℤ)).emod 256).toNat] ++
          row.2.channel_values.map clampByte) (cc - 3) (unique.indexOf row.1 % 256)
    else acc ++ _int_to_le (row.2.time_ms.fdiv 10) 2 ++
        [((((if i = total - 1 then 0 else row.2.play_mode) : ℤ)).emod 256).toNat] ++
        row.2.channel_values.map clampByte) =
      acc ++ sceneRecord unique cc (decide (i = total - 1)) row := by
  have hpm : ((if i = total - 1 then (0 : ℤ) else row.2.play_mode)) =
      ((if decide (i = total - 1) = true then (0 : ℤ) else row.2.play_mode)) := by
    by_cases hL : i = total - 1 <;> simp [hL]
  by_cases h3 : 3 < cc
  · rw [if_pos h3]
    simp only [List.append_assoc]
    rw [setFromEnd_append _ _ _ _ (by simp [_int_to_le_length, hrow]; omega)]
    congr 1
    unfold setFromEnd sceneRecord
    rw [if_pos h3, List.length_append, List.length_append,
      List.set_append, if_neg (by simp [_int_to_le_length, hrow]; omega),
      List.set_append, if_neg (by simp [_int_to_le_length, hrow]; omega)]
    simp only [_int_to_le_length, List.length_singleton, List.length_map, hrow, hpm,
      List.append_assoc]
    congr 3
    omega
  · rw [if_neg h3]
    unfold sceneRecord
    rw [if_neg h3]
    simp only [hpm, List.append_assoc]

theorem sceneRecordsLoop_eq (unique : List (List ℕ)) (cc total : ℕ) :
    ∀ (rows : List (List ℕ × Scene)) (i : ℕ) (acc : List ℕ),
      (∀ r ∈ rows, r.2.channel_values.length = cc) →
      sceneRecordsLoop unique cc total i rows acc =
        acc ++ sceneRecords unique cc total i rows := by
  intro rows
  induction rows with
  | nil => intro i acc _; simp [sceneRecordsLoop, sceneRecords]
  | cons row rest ih =>
    intro i acc hcc
    have hrow : row.2.channel_values.length = cc := hcc row (List.mem_cons_self _ _)
    have hrest : ∀ r ∈ rest, r.2.channel_values.length = cc :=
      fun r hr => hcc r (List.mem_cons_of_mem _ hr)
    simp only [sceneRecordsLoop]
    rw [ih _ _ hrest, sceneRecord_step unique cc i total row acc hrow, sceneRecords,
      List.append_assoc]

theorem sceneRecords_length (unique : List (List ℕ)) (cc total : ℕ) :
    ∀ (rows : List (List ℕ × Scene)) (i : ℕ),
      (∀ r ∈ rows, r.2.channel_values.length = cc) →
      (sceneRecords unique cc total i rows).length = (3 + cc) * rows.length := by
  intro rows
  induction rows with
  | nil => intro i _; simp [sceneRecords]
  | cons row rest ih =>
    intro i hcc
    rw [sceneRecords, List.length_append,
      sceneRecord_length _ _ _ _ (hcc row (List.mem_cons_self _ _)),
      ih _ (fun r hr => hcc r (List.mem_cons_of_mem _ hr))]
    simp [List.length_cons, Nat.mul_succ]
    ring

/-- Total byte length of the first `k` blobs, the start offset of blob `k`
relative to the blob region. -/
def sizesBefore (L : List (List ℕ)) (k : ℕ) : ℕ := ((L.take k).map List.length).sum

theorem headerBytes_length (dt : String) : (headerBytes dt).length = 20 := by
  have h : (dt.toList.take 4).length ≤ 4 := by
    simp
  simp [headerBytes]
  omega

theorem offsetEntries_length (base : ℕ) :
    ∀ L : List (List ℕ), (offsetEntries base L).length = 4 * L.length := by
  intro L
  induction L generalizing base with
  | nil => simp [offsetEntries]
  | cons b rest ih => simp [offsetEntries, _int_to_le_length, ih]; ring

theorem prePayload_length (rows : List (List ℕ × Scene)) (opts : BuildOptions) :
    (prePayload rows opts).length = indexTableStart rows := by
  simp [prePayload, headerBytes_length, _int_to_le_length, offsetEntries_length,
    indexTableStart]
  omega

theorem fullPayload_eq (rows : List (List ℕ × Scene)) (opts : BuildOptions) (cc : ℕ)
    (hcc : ∀ r ∈ rows, r.2.channel_values.length = cc) :
    fullPayload rows opts =
      prePayload rows opts ++
        sceneRecords (uniqueBlobs rows) cc rows.length 0 rows ++
        (uniqueBlobs rows).flatMap id ++ trailerBytes opts := by
  by_cases hrows : rows = []
  · subst hrows
    simp [fullPayload, sceneRecordsLoop, sceneRecords]
  · have hlast : lastChannelCount rows = cc := by
      unfold lastChannelCount
      have : ∀ (l : List (List ℕ × Scene)) (a : ℕ), l ≠ [] →
          (∀ r ∈ l, r.2.channel_values.length = cc) →
          l.foldl (fun _ r => r.2.channel_values.length) a = cc := by
        intro l
        induction l with
        | nil => intro a h; exact absurd rfl h
        | cons row rest ih =>
          intro a _ hu
          by_cases hr : rest = []
          · subst hr
            simp [List.foldl, hu row (List.mem_cons_self _ _)]
          · simp only [List.foldl]
            exact ih _ hr (fun r hmem => hu r (List.mem_cons_of_mem _ hmem))
      exact this rows 0 hrows hcc
    rw [fullPayload, hlast, sceneRecordsLoop_eq _ _ _ _ _ _ hcc]

theorem uniqueBlobs_sub_length :
    ∀ (rows : List (List ℕ × Scene)) (acc : List (List ℕ)),
      (rows.foldl (fun acc r => if r.1 ∈ acc then acc else acc ++ [r.1]) acc).length ≤
        acc.length + rows.length := by
  intro rows
  induction rows with
  | nil => intro acc; simp
  | cons row rest ih =>
    intro acc
    simp only [List.foldl]
    by_cases h : row.1 ∈ acc
    · rw [if_pos h]
      have := ih acc
      simp at this ⊢
      omega
    · rw [if_neg h]
      have := ih (acc ++ [row.1])
      simp at this ⊢
      omega

/-- C7 helper: the dedup pass keeps at most one blob per scene. -/
theorem uniqueBlobs_length_le (rows : List (List ℕ × Scene)) :
    (uniqueBlobs rows).length ≤ rows.length := by
  have := uniqueBlobs_sub_length rows []
  simpa [uniqueBlobs] using this

theorem mem_foldl_uniqueBlobs :
    ∀ (rows : List (List ℕ × Scene)) (acc : List (List ℕ)) (b : List ℕ),
      b ∈ acc ∨ (∃ r ∈ rows, r.1 = b) →
      b ∈ rows.foldl (fun acc r => if r.1 ∈ acc then acc else acc ++ [r.1]) acc := by
  intro rows
  induction rows with
  | nil =>
    intro acc b h
    rcases h with h | ⟨r, hr, _⟩
    · exact h
    · simp at hr
  | cons row rest ih =>
    intro acc b h
    simp only [List.foldl]
    by_cases hmem : row.1 ∈ acc
    · rw [if_pos hmem]
      refine ih _ _ ?_
      rcases h with h | ⟨r, hr, hrb⟩
      · exact Or.inl h
      · rcases List.mem_cons.mp hr with rfl | hr2
        · exact Or.inl (hrb ▸ hmem)
        · exact Or.inr ⟨r, hr2, hrb⟩
    · rw [if_neg hmem]
      refine ih _ _ ?_
      rcases h with h | ⟨r, hr, hrb⟩
      · exact Or.inl (List.mem_append_left _ h)
      · rcases List.mem_cons.mp hr with rfl | hr2
        · exact Or.inl (by simp [hrb])
        · exact Or.inr ⟨r, hr2, hrb⟩

theorem mem_uniqueBlobs (rows : List (List ℕ × Scene)) (r : List ℕ × Scene) (h : r ∈ rows) :
    r.1 ∈ uniqueBlobs rows :=
  mem_foldl_uniqueBlobs rows [] r.1 (Or.inr ⟨r, h, rfl⟩)

theorem int_to_le_byte (n k : ℕ) :
    (((n : ℤ).fdiv ((2 : ℤ) ^ k)).emod 256).toNat = n / 2 ^ k % 256 := by
  rw [show ((2 : ℤ) ^ k) = ((2 ^ k : ℕ) : ℤ) by push_cast; ring,
    ← Int.ofNat_fdiv n (2 ^ k),
    show ((256 : ℤ)) = ((256 : ℕ) : ℤ) by norm_num,
    show (((n / 2 ^ k : ℕ) : ℤ)).emod ((256 : ℕ) : ℤ) = ((n / 2 ^ k % 256 : ℕ) : ℤ) from rfl]
  exact Int.toNat_natCast _

theorem int_to_le_natCast (n : ℕ) :
    _int_to_le (n : ℤ) 4 =
      [n % 256, n / 256 % 256, n / 65536 % 256, n / 16777216 % 256] := by
  show (List.range 4).map _ = _
  rw [show List.range 4 = [0, 1, 2, 3] by rfl]
  simp only [List.map_cons, List.map_nil, int_to_le_byte]
  norm_num

theorem readLE32_drop (l : List ℕ) (off : ℕ) : readLE32 l off = readLE32 (l.drop off) 0 := by
  simp [readLE32, List.getD, List.getElem?_drop]

theorem readLE32_le4 (n : ℕ) (rest : List ℕ) (h : n < 2 ^ 32) :
    readLE32 (_int_to_le (n : ℤ) 4 ++ rest) 0 = n := by
  rw [int_to_le_natCast]
  simp [readLE32, List.getD]
  omega

theorem sizesBefore_cons_succ (b : List ℕ) (restL : List (List ℕ)) (k : ℕ) :
    sizesBefore (b :: restL) (k + 1) = b.length + sizesBefore restL k := by
  simp [sizesBefore]

theorem offsetTable_drop :
    ∀ (L : List (List ℕ)) (k : ℕ) (base : ℕ), k ≤ L.length →
      (_int_to_le ((base : ℕ) : ℤ) 4 ++ offsetEntries base L).drop (4 * k) =
        _int_to_le (((base + sizesBefore L k : ℕ)) : ℤ) 4 ++
          offsetEntries (base + sizesBefore L k) (L.drop k) := by
  intro L
  induction L with
  | nil =>
    intro k base hk
    have hk0 : k = 0 := by simpa using hk
    subst hk0
    simp [sizesBefore, offsetEntries]
  | cons b rest ih =>
    intro k base hk
    match k with
    | 0 => simp [sizesBefore]
    | k + 1 =>
      have h4 : 4 * (k + 1) = (_int_to_le ((base : ℕ) : ℤ) 4).length + 4 * k := by
        simp [_int_to_le_length]; ring
      rw [offsetEntries, h4, List.drop_append, ih k (base + b.length) (by simpa using hk),
        sizesBefore_cons_succ, List.drop_succ_cons,
        show base + (b.length + sizesBefore rest k) = base + b.length + sizesBefore rest k by
          ring]

theorem flatMap_slice :
    ∀ (L : List (List ℕ)) (k : ℕ) (rest : List ℕ), k < L.length →
      ((L.flatMap id ++ rest).drop (sizesBefore L k)).take (L.getD k []).length =
        L.getD k [] := by
  intro L
  induction L with
  | nil => intro k rest hk; simp at hk
  | cons b restL ih =>
    intro k rest hk
    match k with
    | 0 =>
      simp only [sizesBefore, List.take_zero, List.map_nil, List.sum_nil, List.drop_zero,
        List.flatMap_cons, List.getD_cons_zero, id]
      rw [List.append_assoc, List.take_left]
    | k + 1 =>
      simp only [List.flatMap_cons, sizesBefore_cons_succ, List.getD_cons_succ, id]
      rw [List.append_assoc,
        show b.length + sizesBefore restL k = b.length + sizesBefore restL k from rfl,
        List.drop_append]
      exact ih k rest (by simpa using hk)

/-- Default scene, only to satisfy total list indexing. -/
def scene0 : Scene := ⟨0, 0, [], []⟩

/-- Default row, only to satisfy total list indexing. -/
def row0 : List ℕ × Scene := ([], scene0)

/-- The 48 header bytes before the pattern offset table. -/
def head48 (rows : List (List ℕ × Scene)) (opts : BuildOptions) : List ℕ :=
  headerBytes opts.device_type ++
    _int_to_le ((indexTableStart rows : ℕ)) 4 ++
    [0, 0, lastChannelCount rows + 3, 0] ++
    _int_to_le ((rows.length : ℕ)) 2 ++
    _int_to_le (((uniqueBlobs rows).length : ℕ)) 2 ++
    _int_to_le opts.weight 2 ++
    List.replicate 14 0

theorem head48_length (rows : List (List ℕ × Scene)) (opts : BuildOptions) :
    (head48 rows opts).length = 48 := by
  simp [head48, headerBytes_length, _int_to_le_length]

theorem prePayload_decomp (rows : List (List ℕ × Scene)) (opts : BuildOptions) :
    prePayload rows opts =
      head48 rows opts ++
        (_int_to_le ((sceneBlockEnd rows : ℕ)) 4 ++
          offsetEntries (sceneBlockEnd rows) (uniqueBlobs rows)) := by
  simp [prePayload, head48, List.append_assoc]

theorem lastChannelCount_eq (rows : List (List ℕ × Scene)) (cc : ℕ) (hrows : rows ≠ [])
    (hcc : ∀ r ∈ rows, r.2.channel_values.length = cc) : lastChannelCount rows = cc := by
  unfold lastChannelCount
  have aux : ∀ (l : List (List ℕ × Scene)) (a : ℕ), l ≠ [] →
      (∀ r ∈ l, r.2.channel_values.length = cc) →
      l.foldl (fun _ r => r.2.channel_values.length) a = cc := by
    intro l
    induction l with
    | nil => intro a h; exact absurd rfl h
    | cons row rest ih =>
      intro a _ hu
      by_cases hr : rest = []
      · subst hr
        simp [List.foldl, hu row (List.mem_cons_self _ _)]
      · simp only [List.foldl]
        exact ih _ hr (fun r hmem => hu r (List.mem_cons_of_mem _ hmem))
  exact aux rows 0 hrows hcc

theorem buildFromRows_isSome (rows : List (List ℕ × Scene)) (opts : BuildOptions)
    (h : (buildFromRows rows opts).isSome = true) :
    (buildFromRows rows opts).getD [] = fullPayload rows opts ∧ rows ≠ [] ∧
      (fullPayload rows opts).all (fun b => b < 256) = true := by
  unfold buildFromRows at h ⊢
  by_cases h1 : rows.isEmpty
  · rw [if_pos h1] at h; simp at h
  · rw [if_neg h1] at h ⊢
    by_cases h2 : (fullPayload rows opts).all (fun b => b < 256)
    · rw [if_pos h2]
      exact ⟨rfl, by simpa [List.isEmpty_iff] using h1, h2⟩
    · rw [if_neg h2] at h; simp at h

theorem sizesBefore_le_sum (L : List (List ℕ)) (k : ℕ) :
    sizesBefore L k ≤ (L.map List.length).sum := by
  unfold sizesBefore
  conv_rhs => rw [← List.take_append_drop k L]
  rw [List.map_append, List.sum_append]
  omega

theorem fullPayload_length_eq (rows : List (List ℕ × Scene)) (opts : BuildOptions) (cc : ℕ)
    (hrows : rows ≠ []) (hcc : ∀ r ∈ rows, r.2.channel_values.length = cc) :
    (fullPayload rows opts).length =
      sceneBlockEnd rows + ((uniqueBlobs rows).map List.length).sum +
        (trailerBytes opts).length := by
  rw [fullPayload_eq rows opts cc hcc]
  simp only [List.length_append, prePayload_length,
    sceneRecords_length (uniqueBlobs rows) cc rows.length rows 0 hcc]
  have hflat : ((uniqueBlobs rows).flatMap id).length = ((uniqueBlobs rows).map List.length).sum := by
    simp [List.length_flatMap]
  rw [hflat, sceneBlockEnd, lastChannelCount_eq rows cc hrows hcc]
  ring

theorem quad_assoc (A T S B W : List ℕ) :
    A ++ T ++ S ++ B ++ W = A ++ (T ++ (S ++ (B ++ W))) := by
  simp [List.append_assoc]

theorem fullPayload_table_read (rows : List (List ℕ × Scene)) (opts : BuildOptions)
    (cc k : ℕ) (hcc : ∀ r ∈ rows, r.2.channel_values.length = cc)
    (hk : k ≤ (uniqueBlobs rows).length)
    (hfit : sceneBlockEnd rows + sizesBefore (uniqueBlobs rows) k < 2 ^ 32) :
    readLE32 (fullPayload rows opts) (48 + 4 * k) =
      sceneBlockEnd rows + sizesBefore (uniqueBlobs rows) k := by
  have hlen : 4 * k ≤
      (_int_to_le ((sceneBlockEnd rows : ℕ)) 4 ++
        offsetEntries (sceneBlockEnd rows) (uniqueBlobs rows)).length := by
    simp [_int_to_le_length, offsetEntries_length]
    omega
  rw [readLE32_drop, fullPayload_eq rows opts cc hcc, prePayload_decomp,
    quad_assoc (head48 rows opts) _ _ _ _,
    show 48 + 4 * k = (head48 rows opts).length + 4 * k by rw [head48_length],
    List.drop_append, List.drop_append_eq_append_drop, Nat.sub_eq_zero_of_le hlen,
    List.drop_zero, offsetTable_drop _ k _ hk, List.append_assoc, readLE32_le4 _ _ hfit]

theorem sizesBefore_zero (L : List (List ℕ)) : sizesBefore L 0 = 0 := by
  simp [sizesBefore]

theorem sizesBefore_succ_of_lt (L : List (List ℕ)) (k : ℕ) (hk : k < L.length) :
    sizesBefore L (k + 1) = sizesBefore L k + (L.getD k []).length := by
  unfold sizesBefore
  rw [List.take_succ, List.map_append, List.sum_append]
  congr 1
  rw [List.getD_eq_getElem L [] hk]
  simp [List.getElem?_eq_getElem hk]

theorem sceneRows_uniform (scenes : List Scene) (opts : BuildOptions) (cc : ℕ)
    (hcc : ∀ s ∈ scenes, s.channel_values.length = cc) :
    ∀ r ∈ sceneRows scenes opts, r.2.channel_values.length = cc := by
  intro r hr
  simp only [sceneRows, List.mem_map] at hr
  obtain ⟨s, hs, rfl⟩ := hr
  exact hcc s hs

/-- C6 (amended): the pattern offset table begins at byte 48 with the
scene-block-end offset, and each following 4-byte entry equals the previous
entry plus the corresponding blob's byte length (so entries are
non-decreasing, and strictly increasing exactly between non-empty blobs;
a scene whose encoded blob is empty repeats the previous entry). -/
theorem C6_offset_table (scenes : List Scene) (opts : BuildOptions) (cc : ℕ)
    (hsome : (build_tf1_payload scenes opts).isSome = true)
    (hcc : ∀ s ∈ scenes, s.channel_values.length = cc)
    (hfit : ((build_tf1_payload scenes opts).getD []).length < 2 ^ 32) :
    readLE32 ((build_tf1_payload scenes opts).getD []) 48 =
      sceneBlockEnd (sceneRows scenes opts) ∧
    ∀ k < (uniqueBlobs (sceneRows scenes opts)).length,
      readLE32 ((build_tf1_payload scenes opts).getD []) (48 + 4 * (k + 1)) =
        readLE32 ((build_tf1_payload scenes opts).getD []) (48 + 4 * k) +
          ((uniqueBlobs (sceneRows scenes opts)).getD k []).length := by
  simp only [build_tf1_payload] at hsome hfit ⊢
  obtain ⟨hgetD, hrows, -⟩ := buildFromRows_isSome _ opts hsome
  rw [hgetD] at hfit ⊢
  have huni := sceneRows_uniform scenes opts cc hcc
  have hlenfull := fullPayload_length_eq (sceneRows scenes opts) opts cc hrows huni
  have hfitk : ∀ k, k ≤ (uniqueBlobs (sceneRows scenes opts)).length →
      sceneBlockEnd (sceneRows scenes opts) +
        sizesBefore (uniqueBlobs (sceneRows scenes opts)) k < 2 ^ 32 := by
    intro k _
    have h1 := sizesBefore_le_sum (uniqueBlobs (sceneRows scenes opts)) k
    omega
  constructor
  · have h0 := fullPayload_table_read (sceneRows scenes opts) opts cc 0 huni
      (Nat.zero_le _) (hfitk 0 (Nat.zero_le _))
    simpa [sizesBefore_zero] using h0
  · intro k hk
    rw [fullPayload_table_read (sceneRows scenes opts) opts cc (k + 1) huni hk
        (hfitk (k + 1) hk),
      fullPayload_table_read (sceneRows scenes opts) opts cc k huni (le_of_lt hk)
        (hfitk k (le_of_lt hk)),
      sizesBefore_succ_of_lt _ k hk]
    ring

/-- Python string literal "AUTO1". -/
def nameAuto : String := "AUTO1"

/-- Python string literal "DQF6_LS01". -/
def devDQF6 : String := "DQF6_LS01"

/-- The default build options of the source CLI. -/
def optsA : BuildOptions := ⟨nameAuto, 1, devDQF6, 360, 360⟩

/-- A scene with no patterns and no channel values; its encoded blob is empty. -/
def sceneE : Scene := ⟨5000, 0, [], []⟩

/-- Counterexample to C6 as stated: with a single scene whose encoded blob is
empty, the two successive offset-table entries are both 59 - equal, not
strictly increasing. -/
theorem C6_offset_table_cex :
    (build_tf1_payload [sceneE] optsA).isSome = true ∧
    readLE32 ((build_tf1_payload [sceneE] optsA).getD []) 48 = 59 ∧
    readLE32 ((build_tf1_payload [sceneE] optsA).getD []) 52 = 59 := by
  refine ⟨by decide, by decide, by decide⟩

/-- Witness for C6 at a concrete one-scene input. -/
theorem C6_offset_table_witness :
    readLE32 ((build_tf1_payload [sceneE] optsA).getD []) 48 =
      sceneBlockEnd (sceneRows [sceneE] optsA) :=
  (C6_offset_table [sceneE] optsA 0 (by decide) (by decide) (by decide)).1

theorem indexOf_lt_length_of_mem {α : Type} [BEq α] [LawfulBEq α] (l : List α) (a : α)
    (h : a ∈ l) : l.indexOf a < l.length := by
  induction l with
  | nil => simp at h
  | cons b t ih =>
    rw [List.indexOf_cons]
    by_cases hba : b == a
    · simp [hba]
    · have hat : a ∈ t := by
        rcases List.mem_cons.mp h with rfl | ht
        · simp at hba
        · exact ht
      simp only [hba, cond_false, List.length_cons]
      exact Nat.succ_lt_succ (ih hat)

theorem getD_indexOf_of_mem {α : Type} [BEq α] [LawfulBEq α] (l : List α) (a d : α)
    (h : a ∈ l) : l.getD (l.indexOf a) d = a := by
  induction l with
  | nil => simp at h
  | cons b t ih =>
    rw [List.indexOf_cons]
    by_cases hba : b == a
    · simp only [hba, cond_true, List.getD_cons_zero]
      exact (eq_of_beq hba)
    · have hat : a ∈ t := by
        rcases List.mem_cons.mp h with rfl | ht
        · simp at hba
        · exact ht
      simp only [hba, cond_false, List.getD_cons_succ]
      exact ih hat

/-- C7: deduplication is sound: there are at most as many unique blobs as
scenes, and every scene's blob index, resolved through the offset table entry
at byte 48+4k, locates a byte range equal to that scene's own encoder output. -/
theorem C7_dedup_resolution (scenes : List Scene) (opts : BuildOptions) (cc : ℕ)
    (hsome : (build_tf1_payload scenes opts).isSome = true)
    (hcc : ∀ s ∈ scenes, s.channel_values.length = cc)
    (hfit : ((build_tf1_payload scenes opts).getD []).length < 2 ^ 32) :
    (uniqueBlobs (sceneRows scenes opts)).length ≤ scenes.length ∧
    ∀ i < scenes.length,
      (uniqueBlobs (sceneRows scenes opts)).indexOf ((sceneRows scenes opts).getD i row0).1 <
        (uniqueBlobs (sceneRows scenes opts)).length ∧
      (((build_tf1_payload scenes opts).getD []).drop
          (readLE32 ((build_tf1_payload scenes opts).getD [])
            (48 + 4 * ((uniqueBlobs (sceneRows scenes opts)).indexOf
              ((sceneRows scenes opts).getD i row0).1)))).take
          ((sceneRows scenes opts).getD i row0).1.length =
        ((sceneRows scenes opts).getD i row0).1 := by
  simp only [build_tf1_payload] at hsome hfit ⊢
  obtain ⟨hgetD, hrows, -⟩ := buildFromRows_isSome _ opts hsome
  rw [hgetD] at hfit ⊢
  have huni := sceneRows_uniform scenes opts cc hcc
  have hlenrows : (sceneRows scenes opts).length = scenes.length := by simp [sceneRows]
  have hlenfull := fullPayload_length_eq (sceneRows scenes opts) opts cc hrows huni
  constructor
  · exact hlenrows ▸ uniqueBlobs_length_le (sceneRows scenes opts)
  · intro i hi
    have hmemrow : (sceneRows scenes opts).getD i row0 ∈ sceneRows scenes opts := by
      rw [List.getD_eq_getElem _ row0 (by omega)]
      exact List.getElem_mem _
    have hmem : ((sceneRows scenes opts).getD i row0).1 ∈ uniqueBlobs (sceneRows scenes opts) :=
      mem_uniqueBlobs _ _ hmemrow
    have hklt := indexOf_lt_length_of_mem _ _ hmem
    refine ⟨hklt, ?_⟩
    have hgetDk :
        (uniqueBlobs (sceneRows scenes opts)).getD
            ((uniqueBlobs (sceneRows scenes opts)).indexOf
              ((sceneRows scenes opts).getD i row0).1) [] =
          ((sceneRows scenes opts).getD i row0).1 :=
      getD_indexOf_of_mem _ _ [] hmem
    have hfitk : sceneBlockEnd (sceneRows scenes opts) +
        sizesBefore (uniqueBlobs (sceneRows scenes opts))
          ((uniqueBlobs (sceneRows scenes opts)).indexOf
            ((sceneRows scenes opts).getD i row0).1) < 2 ^ 32 := by
      have h1 := sizesBefore_le_sum (uniqueBlobs (sceneRows scenes opts))
        ((uniqueBlobs (sceneRows scenes opts)).indexOf
          ((sceneRows scenes opts).getD i row0).1)
      omega
    rw [fullPayload_table_read (sceneRows scenes opts) opts cc _ huni (le_of_lt hklt) hfitk]
    have hsbe :
        (prePayload (sceneRows scenes opts) opts ++
          sceneRecords (uniqueBlobs (sceneRows scenes opts)) cc
            (sceneRows scenes opts).length 0 (sceneRows scenes opts)).length =
          sceneBlockEnd (sceneRows scenes opts) := by
      rw [List.length_append, prePayload_length,
        sceneRecords_length _ cc _ _ 0 huni, sceneBlockEnd,
        lastChannelCount_eq _ cc hrows huni]
      ring
    rw [fullPayload_eq _ opts cc huni, List.append_assoc,
      show sceneBlockEnd (sceneRows scenes opts) +
          sizesBefore (uniqueBlobs (sceneRows scenes opts))
            ((uniqueBlobs (sceneRows scenes opts)).indexOf
              ((sceneRows scenes opts).getD i row0).1) =
        (prePayload (sceneRows scenes opts) opts ++
          sceneRecords (uniqueBlobs (sceneRows scenes opts)) cc
            (sceneRows scenes opts).length 0 (sceneRows scenes opts)).length +
          sizesBefore (uniqueBlobs (sceneRows scenes opts))
            ((uniqueBlobs (sceneRows scenes opts)).indexOf
              ((sceneRows scenes opts).getD i row0).1) by rw [hsbe],
      List.drop_append]
    have hslice := flatMap_slice (uniqueBlobs (sceneRows scenes opts)) _ (trailerBytes opts) hklt
    rw [hgetDk] at hslice
    exact hslice

/-- A second empty-pattern scene with different timing, sharing sceneE's blob. -/
def sceneE2 : Scene := ⟨7000, 1, [], []⟩

/-- Witness for C7: two scenes with identical (empty) geometry share one blob. -/
theorem C7_dedup_resolution_witness :
    (uniqueBlobs (sceneRows [sceneE, sceneE2] optsA)).length ≤ 2 :=
  (C7_dedup_resolution [sceneE, sceneE2] optsA 0 (by decide) (by decide) (by decide)).1

theorem sceneRecords_slice (unique : List (List ℕ)) (cc total : ℕ) :
    ∀ (rows : List (List ℕ × Scene)) (i0 i : ℕ) (rest : List ℕ),
      (∀ r ∈ rows, r.2.channel_values.length = cc) → i < rows.length →
      ((sceneRecords unique cc total i0 rows ++ rest).drop ((3 + cc) * i)).take (3 + cc) =
        sceneRecord unique cc (decide (i0 + i = total - 1)) (rows.getD i row0) := by
  intro rows
  induction rows with
  | nil => intro i0 i rest _ hi; simp at hi
  | cons row rrest ih =>
    intro i0 i rest hcc hi
    match i with
    | 0 =>
      simp only [Nat.mul_zero, List.drop_zero, sceneRecords, List.getD_cons_zero, Nat.add_zero]
      rw [List.append_assoc,
        show (3 + cc) = (sceneRecord unique cc (decide (i0 = total - 1)) row).length from
          (sceneRecord_length _ _ _ _ (hcc row (List.mem_cons_self _ _))).symm,
        List.take_left]
    | i + 1 =>
      rw [sceneRecords, List.append_assoc,
        show (3 + cc) * (i + 1) =
            (sceneRecord unique cc (decide (i0 = total - 1)) row).length + (3 + cc) * i by
          rw [sceneRecord_length _ _ _ _ (hcc row (List.mem_cons_self _ _))]; ring,
        List.drop_append]
      have hrec := ih (i0 + 1) i rest (fun r hr => hcc r (List.mem_cons_of_mem _ hr))
        (by simpa using hi)
      rw [show i0 + 1 + i = i0 + (i + 1) by ring] at hrec
      simpa using hrec

/-- C1 (amended): in every produced payload with channelCount > 3, scene
record `i` consists of the 2-byte duration, the play-mode byte (forced to 0
for the last scene), and the channel bytes clamped to 0..255 in which the
byte of channel index 3 (the 4th channel) - not the final channel byte - is
overwritten with the scene's unique-blob index. When channelCount = 4 the 4th
channel byte is the final one, which is the only case where the original
claim holds. -/
theorem C1_channel_bytes (scenes : List Scene) (opts : BuildOptions) (cc i : ℕ)
    (hsome : (build_tf1_payload scenes opts).isSome = true)
    (hcc : ∀ s ∈ scenes, s.channel_values.length = cc)
    (h3 : 3 < cc) (hi : i < scenes.length) :
    (((build_tf1_payload scenes opts).getD []).drop
        (indexTableStart (sceneRows scenes opts) + (3 + cc) * i)).take (3 + cc) =
      _int_to_le ((((sceneRows scenes opts).getD i row0).2.time_ms.fdiv 10)) 2 ++
        [(((if i = scenes.length - 1 then (0 : ℤ)
            else ((sceneRows scenes opts).getD i row0).2.play_mode)).emod 256).toNat] ++
        ((((sceneRows scenes opts).getD i row0).2.channel_values.map clampByte).set 3
          ((uniqueBlobs (sceneRows scenes opts)).indexOf
            ((sceneRows scenes opts).getD i row0).1 % 256)) := by
  simp only [build_tf1_payload] at hsome ⊢
  obtain ⟨hgetD, hrows, -⟩ := buildFromRows_isSome _ opts hsome
  rw [hgetD]
  have huni := sceneRows_uniform scenes opts cc hcc
  have hlenrows : (sceneRows scenes opts).length = scenes.length := by simp [sceneRows]
  rw [fullPayload_eq _ opts cc huni, List.append_assoc, List.append_assoc,
    show indexTableStart (sceneRows scenes opts) + (3 + cc) * i =
        (prePayload (sceneRows scenes opts) opts).length + (3 + cc) * i by
      rw [prePayload_length],
    List.drop_append,
    sceneRecords_slice (uniqueBlobs (sceneRows scenes opts)) cc
      (sceneRows scenes opts).length (sceneRows scenes opts) 0 i _ huni (by omega)]
  rw [sceneRecord, if_pos h3]
  congr 2
  · rw [hlenrows]
    by_cases hL : i = scenes.length - 1 <;> simp [hL]

/-- A scene with five channel values and no patterns. -/
def scene5 : Scene := ⟨5000, 0, [], [10, 20, 30, 40, 50]⟩

/-- Counterexample to C1 as stated: with channelCount = 5, the record's 4th
channel byte (payload offset 62) holds the blob index 0 instead of the
clamped value 40, while the final channel byte (offset 63) still holds the
clamped value 50 instead of the blob index. -/
theorem C1_channel_bytes_cex :
    (build_tf1_payload [scene5] optsA).isSome = true ∧
    ((build_tf1_payload [scene5] optsA).getD []).getD 62 0 = 0 ∧
    ((build_tf1_payload [scene5] optsA).getD []).getD 63 0 = 50 := by
  refine ⟨by decide, by decide, by decide⟩

/-- Witness for C1 at a concrete one-scene input with channelCount = 5. -/
theorem C1_channel_bytes_witness :
    (((build_tf1_payload [scene5] optsA).getD []).drop
        (indexTableStart (sceneRows [scene5] optsA) + (3 + 5) * 0)).take (3 + 5) =
      _int_to_le ((((sceneRows [scene5] optsA).getD 0 row0).2.time_ms.fdiv 10)) 2 ++
        [(((if (0 : ℕ) = [scene5].length - 1 then (0 : ℤ)
            else ((sceneRows [scene5] optsA).getD 0 row0).2.play_mode)).emod 256).toNat] ++
        ((((sceneRows [scene5] optsA).getD 0 row0).2.channel_values.map clampByte).set 3
          ((uniqueBlobs (sceneRows [scene5] optsA)).indexOf
            ((sceneRows [scene5] optsA).getD 0 row0).1 % 256)) :=
  C1_channel_bytes [scene5] optsA 5 0 (by decide) (by decide) (by decide) (by decide)

/-- C10: every payload byte is emitted as a raw code point, so the build
fails (bytes() raises ValueError) whenever the selected display name or the
first four device_type characters contain a code point above 255; only names
containing a character of the single CJK block U+4E00-U+9FFF are replaced by
the ASCII fallback, all other names (Greek, Hangul, ...) are emitted
verbatim. -/
theorem C10_name_bytes :
    (∀ (scenes : List Scene) (opts : BuildOptions) (cc : ℕ),
      (∀ s ∈ scenes, s.channel_values.length = cc) →
      (∃ c ∈ opts.device_type.toList.take 4 ++ (displayName opts).toList, 255 < c.toNat) →
      build_tf1_payload scenes opts = none) ∧
    (∀ opts : BuildOptions, _contains_cjk opts.tf1_name = true →
      displayName opts = fallbackNameStr) ∧
    (∀ opts : BuildOptions, _contains_cjk opts.tf1_name = false →
      displayName opts = opts.tf1_name) ∧
    (∀ value : String, _contains_cjk value = true ↔
      ∃ ch ∈ value.toList, 0x4e00 ≤ ch.toNat ∧ ch.toNat ≤ 0x9fff) := by
  refine ⟨?_, ?_, ?_, ?_⟩
  · intro scenes opts cc hcc hbad
    by_cases hscenes : scenes = []
    · subst hscenes
      simp [build_tf1_payload, buildFromRows, sceneRows]
    · obtain ⟨c, hcmem, hcbig⟩ := hbad
      have huni := sceneRows_uniform scenes opts cc hcc
      have hmem : c.toNat ∈ fullPayload (sceneRows scenes opts) opts := by
        rw [fullPayload_eq _ opts cc huni]
        rcases List.mem_append.mp hcmem with hdev | hname
        · have hdev2 : c.toNat ∈ (opts.device_type.toList.take 4).map Char.toNat :=
            List.mem_map_of_mem _ hdev
          simp only [prePayload, headerBytes, List.mem_append]
          tauto
        · have hname2 : c.toNat ∈ (displayName opts).toList.map Char.toNat :=
            List.mem_map_of_mem _ hname
          simp only [trailerBytes, List.mem_append]
          tauto
      have hall : (fullPayload (sceneRows scenes opts) opts).all
          (fun b => b < 256) = false := by
        simp only [List.all_eq_false]
        exact ⟨c.toNat, hmem, by simp; omega⟩
      simp only [build_tf1_payload, buildFromRows]
      rw [if_neg (by simp [sceneRows, hscenes]), if_neg (by simp [hall])]
  · intro opts h
    simp [displayName, h]
  · intro opts h
    simp [displayName, h]
  · intro value
    simp [_contains_cjk, List.any_eq_true]

/-- Python string literal with Greek letters (no CJK character). -/
def nameGreek : String := "αβγ"

/-- Build options whose display name contains non-Latin-1, non-CJK characters. -/
def optsGreek : BuildOptions := ⟨nameGreek, 1, devDQF6, 360, 360⟩

/-- Witness for C10: a Greek display name is kept verbatim and makes the
build raise. -/
theorem C10_name_bytes_witness :
    build_tf1_payload [sceneE] optsGreek = none :=
  C10_name_bytes.1 [sceneE] optsGreek 0 (by decide) ⟨'α', by decide, by decide⟩

/-- C4 (amended): in the simple-scene shape a non-empty channel list replaces
the defaults and, when shorter, is padded with the remaining defaults; but in
the app-sequence shape a non-empty channelList replaces the defaults with no
padding at all. In both shapes a missing or empty channel list leaves the
defaults verbatim. -/
theorem C4_channel_ingestion :
    (∀ (e : SeqSceneEntry) (d : List ℤ), e.channelList.isEmpty = false →
      (scene_from_seq_entry e d).channel_values =
        e.channelList.map (fun c => c.value.getD 0)) ∧
    (∀ (e : SeqSceneEntry) (d : List ℤ), e.channelList.isEmpty = true →
      (scene_from_seq_entry e d).channel_values = d) ∧
    (∀ (e : SimpleSceneEntry) (d : List ℤ) (raw : List ℤ), e.channels = some raw →
      raw.isEmpty = false →
      (scene_from_simple_entry e d).channel_values = raw ++ d.drop raw.length) ∧
    (∀ (e : SimpleSceneEntry) (d : List ℤ),
      (e.channels = none ∨ e.channels = some []) →
      (scene_from_simple_entry e d).channel_values = d) := by
  refine ⟨?_, ?_, ?_, ?_⟩
  · intro e d h
    simp [scene_from_seq_entry, h]
  · intro e d h
    simp [scene_from_seq_entry, h]
  · intro e d raw hsome hne
    simp only [scene_from_simple_entry, hsome, hne, Bool.false_eq_true, if_false]
    by_cases hlen : raw.length < d.length
    · simp [hlen]
    · rw [if_neg hlen, List.drop_eq_nil_of_le (by omega), List.append_nil]
  · intro e d h
    rcases h with h | h <;> simp [scene_from_simple_entry, h]

/-- Counterexample to C4 as stated: an app-sequence scene whose channelList
holds the single value 7 against defaults [1, 2, 3] yields channel_values
[7] - the remaining defaults are not appended. -/
theorem C4_channel_ingestion_cex :
    (scene_from_seq_entry ⟨[⟨some 7⟩], [], none, none, none, none⟩ [1, 2, 3]).channel_values =
        [7] ∧
    (scene_from_seq_entry ⟨[⟨some 7⟩], [], none, none, none, none⟩ [1, 2, 3]).channel_values ≠
      [7, 2, 3] := by
  refine ⟨by decide, by decide⟩

/-- Witness for C4: the simple shape pads a short channel list with the
remaining defaults, the app-sequence shape does not. -/
theorem C4_channel_ingestion_witness :
    (scene_from_simple_entry ⟨some [7], [], none, none, none, none⟩ [1, 2, 3]).channel_values =
        [7] ++ [1, 2, 3].drop 1 ∧
    (scene_from_seq_entry ⟨[], [], none, none, none, none⟩ [1, 2, 3]).channel_values =
      [1, 2, 3] :=
  ⟨C4_channel_ingestion.2.2.1 ⟨some [7], [], none, none, none, none⟩ [1, 2, 3] [7] rfl
      (by decide),
    C4_channel_ingestion.2.1 ⟨[], [], none, none, none, none⟩ [1, 2, 3] (by decide)⟩

/-- C2 (amended): _encode_step normalizes both the x and the y offset by the
single canvas_size parameter, which encode_patterns instantiates with the
canvas width; the computed radius therefore equals the spec's formula with
canvasHeight replaced by canvasWidth, and coincides with the spec exactly as
stated whenever the canvas is square. -/
theorem C2_radius_normalization (cur_x cur_y cx cy : ℚ) (w h : ℤ) :
    _radius cur_x cur_y cx cy w = radius_spec cur_x cur_y cx cy w w ∧
    (w = h → _radius cur_x cur_y cx cy w = radius_spec cur_x cur_y cx cy w h) := by
  refine ⟨rfl, ?_⟩
  rintro rfl
  rfl

/-- Counterexample to C2 as stated: on a 101x201 canvas, for the point
(50.5, 0) straight above the center, the code computes radius 4033
(normalizing the y offset by the width) while the spec formula gives 2017
(normalizing it by the height). -/
theorem C2_radius_normalization_cex :
    _radius 50.5 0 (_center_point 101 201).1 (_center_point 101 201).2 101 = 4033 ∧
    radius_spec 50.5 0 (_center_point 101 201).1 (_center_point 101 201).2 101 201 = 2017 := by
  constructor
  · unfold _radius _center_point
    norm_num
    rw [round_eq]
    rw [Int.floor_eq_iff, abs_of_nonneg (by norm_num : (0 : ℝ) ≤ 201 / 2)]
    norm_num
  · unfold radius_spec _center_point
    norm_num
    rw [round_eq]
    rw [Int.floor_eq_iff, abs_of_nonneg (by norm_num : (0 : ℝ) ≤ 201 / 2)]
    norm_num

/-- Witness for C2 on the source's default square 360x360 canvas. -/
theorem C2_radius_normalization_witness :
    _radius 10 20 180 180 360 = radius_spec 10 20 180 180 360 360 :=
  (C2_radius_normalization 10 20 180 180 360 360).2 rfl

theorem round_mono_of_le (x y : ℝ) (h : x ≤ y) : round x ≤ round y := by
  rw [round_eq, round_eq]
  exact Int.floor_le_floor (by linarith)

theorem round_scale_bounds (u : ℝ) (h0 : 0 ≤ u) (h2 : u ≤ 2 * Real.pi) :
    0 ≤ round (u / Real.pi / 2 * 1024) ∧ round (u / Real.pi / 2 * 1024) ≤ 1024 := by
  have hpi := Real.pi_pos
  have hval0 : (0 : ℝ) ≤ u / Real.pi / 2 * 1024 := by positivity
  have hdiv : u / Real.pi ≤ 2 := by
    rw [div_le_iff₀ hpi]
    linarith
  have hval1 : u / Real.pi / 2 * 1024 ≤ 1024 := by linarith
  have h1024 : round ((1024 : ℝ)) = 1024 := by
    rw [show (1024 : ℝ) = ((1024 : ℤ) : ℝ) by norm_num, round_intCast]
  constructor
  · have := round_mono_of_le 0 (u / Real.pi / 2 * 1024) hval0
    simpa using this
  · have := round_mono_of_le (u / Real.pi / 2 * 1024) 1024 hval1
    rwa [h1024] at this

/-- C5 (amended): the angle value is an integer in 0..1024 - not 0..1023.
Axis-aligned cases give exactly 0, 256, 512 or 768, and each off-axis
quadrant expression is a rounding of a real in [0, 1024]; in the fourth
quadrant the rounding can reach 1024 itself (one full turn), spilling into
the turn-hint bits of the second word. -/
theorem C5_angle_range (cx cy px py : ℝ) :
    0 ≤ _point_angle cx cy px py ∧ _point_angle cx cy px py ≤ 1024 := by
  have hpi := Real.pi_pos
  simp only [_point_angle]
  split_ifs with h1 h2 h2b h3 h3b h4 h5 h6
  all_goals constructor
  all_goals try norm_num
  all_goals
    (have ht : (0 : ℝ) ≤ |cy - py| / |cx - px| := by positivity
     have ha0 : 0 ≤ Real.arctan (|cy - py| / |cx - px|) := by
       rw [← Real.arctan_zero]
       exact Real.arctan_strictMono.monotone ht
     have hapi : Real.arctan (|cy - py| / |cx - px|) < Real.pi / 2 :=
       Real.arctan_lt_pi_div_two _
     first
       | exact (round_scale_bounds _ (by linarith) (by linarith)).1
       | exact (round_scale_bounds _ (by linarith) (by linarith)).2)

/-- Counterexample to C5 as stated: for the point (360, 180.5) seen from
center (180, 180) - just below the positive x direction - the fourth-quadrant
branch rounds to 1024, outside 0..1023, spilling into the turn-hint bits. -/
theorem C5_angle_range_cex : _point_angle 180 180 360 180.5 = 1024 := by
  have hpi := Real.pi_pos
  have h3pi : (3 : ℝ) < Real.pi := Real.pi_gt_three
  simp only [_point_angle]
  rw [if_neg (by norm_num), if_neg (by norm_num), if_neg (by norm_num),
    if_neg (by norm_num), if_neg (by norm_num), if_neg (by norm_num)]
  have habs : |(180 : ℝ) - 180.5| / |(180 : ℝ) - 360| = 1 / 360 := by
    rw [abs_of_nonpos (by norm_num), abs_of_nonpos (by norm_num)]
    norm_num
  rw [habs]
  have ha0 : 0 < Real.arctan (1 / 360) := by
    have := Real.arctan_strictMono (show (0 : ℝ) < 1 / 360 by norm_num)
    rwa [Real.arctan_zero] at this
  have halt : Real.arctan (1 / 360) < 1 / 360 := by
    have h1 : Real.arctan (1 / 360) < Real.tan (Real.arctan (1 / 360)) :=
      Real.lt_tan ha0 (Real.arctan_lt_pi_div_two _)
    rwa [Real.tan_arctan] at h1
  have hta : Real.arctan (1 / 360) / Real.pi < 1 / 1024 := by
    rw [div_lt_iff₀ hpi]
    nlinarith
  have hta0 : 0 < Real.arctan (1 / 360) / Real.pi := div_pos ha0 hpi
  have hv : (2 * Real.pi - Real.arctan (1 / 360)) / Real.pi / 2 * 1024 =
      1024 - 512 * (Real.arctan (1 / 360) / Real.pi) := by
    field_simp
    ring
  rw [hv, round_eq, Int.floor_eq_iff]
  constructor <;> push_cast <;> linarith

theorem _encode_step_length (is_start : Bool) (prev_p : Option Point) (cur_p : Point)
    (next_p : Option Point) (center : ℚ × ℚ) (canvas_size : ℤ) :
    (_encode_step is_start prev_p cur_p next_p center canvas_size).length = 4 := rfl

theorem encodePatternAt_length (pat : Pattern) (center : ℚ × ℚ) (w : ℤ) (i : ℕ) :
    (encodePatternAt pat center w i).length = 4 + (if emitsClose pat i then 4 else 0) := by
  simp only [encodePatternAt]
  by_cases hcl : closesAt pat i
  · simp only [hcl, if_true]
    cases hfs : _find_first_start pat.points i with
    | none => simp [emitsClose, hcl, hfs, _encode_step_length]
    | some sp => simp [emitsClose, hcl, hfs, _encode_step_length]
  · simp [emitsClose, hcl, _encode_step_length]

theorem sum_map_four_add_ite (p : ℕ → Bool) :
    ∀ l : List ℕ, (l.map (fun i => 4 + (if p i then 4 else 0))).sum =
      4 * l.length + 4 * l.countP p := by
  intro l
  induction l with
  | nil => simp
  | cons a t ih =>
    rw [List.map_cons, List.sum_cons, ih, List.countP_cons, List.length_cons]
    by_cases hp : p a <;> simp [hp] <;> ring

theorem encodePattern_length (pat : Pattern) (center : ℚ × ℚ) (w : ℤ) :
    ((List.range pat.points.length).flatMap (encodePatternAt pat center w)).length =
      4 * pat.points.length + 4 * (List.range pat.points.length).countP
        (fun i => emitsClose pat i) := by
  rw [List.length_flatMap]
  simp only [Function.comp_def]
  have hmap : (List.range pat.points.length).map (fun i => (encodePatternAt pat center w i).length) =
      (List.range pat.points.length).map (fun i => 4 + (if emitsClose pat i then 4 else 0)) :=
    List.map_congr_left (fun i _ => encodePatternAt_length pat center w i)
  rw [hmap, sum_map_four_add_ite]
  simp

/-- C3 (amended): one synthetic closing vertex is appended after vertex i
exactly when the close flag is set, vertex i is the last of its sub-path
(the next vertex starts a new sub-path or there is no next vertex), and a
start point exists at or before i - with no minimum sub-path size: the byte
length of the encoding is 4 bytes per vertex plus 4 per such closing
position. A scene with one closed triangular pattern (first point marked
start) encodes exactly 4 vertices (16 bytes); a closed 2-point sub-path also
gains a closing vertex, contrary to the 3-point condition of the claim. -/
theorem C3_closing_vertices :
    (∀ (patterns : List Pattern) (w h : ℤ),
      (encode_patterns patterns w h).length =
        (patterns.map (fun pat => 4 * pat.points.length +
          4 * (List.range pat.points.length).countP (fun i => emitsClose pat i))).sum) ∧
    (∀ (x0 y0 x1 y1 x2 y2 : ℚ) (c0 c1 c2 : String) (w h : ℤ),
      (encode_patterns
        [⟨[⟨x0, y0, c0, true⟩, ⟨x1, y1, c1, false⟩, ⟨x2, y2, c2, false⟩], true⟩] w h).length =
        16) := by
  have hgen : ∀ (patterns : List Pattern) (w h : ℤ),
      (encode_patterns patterns w h).length =
        (patterns.map (fun pat => 4 * pat.points.length +
          4 * (List.range pat.points.length).countP (fun i => emitsClose pat i))).sum := by
    intro patterns w h
    rw [encode_patterns, List.length_flatMap]
    simp only [Function.comp_def]
    congr 1
    refine List.map_congr_left (fun pat _ => ?_)
    exact encodePattern_length pat (_center_point w h) w
  refine ⟨hgen, ?_⟩
  intro x0 y0 x1 y1 x2 y2 c0 c1 c2 w h
  rw [hgen]
  rfl

/-- A concrete 2-point closed pattern. -/
def pattern2 : Pattern :=
  ⟨[⟨0, 0, whiteHexStr, true⟩, ⟨10, 0, whiteHexStr, false⟩], true⟩

/-- Counterexample to C3 as stated: a single closed 2-point sub-path encodes
3 vertices (12 bytes), not 2 - the closing vertex is appended even though the
sub-path has fewer than 3 points. -/
theorem C3_closing_vertices_cex : (encode_patterns [pattern2] 360 360).length = 12 := by
  rw [encode_patterns]
  simp only [List.flatMap_cons, List.flatMap_nil, List.append_nil]
  rw [encodePattern_length pattern2 (_center_point 360 360) 360]
  rfl
